import Mathlib

/-!
Verification of the viralboost realtime server (src/server.js): the
websocket chat / presence / DM subsystem and the in-memory HTTP state
(vote guard, user registration).  Shallow embedding: the global mutable
maps of the source become fields of explicit state records, JS `Map`s
become association lists, JS `Set`s become duplicate-free lists, and
`Date.now()` / timestamps become a logical clock threaded through the
state.
-/

set_option maxHeartbeats 1000000
set_option maxRecDepth 4000

namespace Viralboost

/-! ### Association-list maps (the embedding of JS `Map`) -/

def alookup {K V : Type} [DecidableEq K] : List (K × V) → K → Option V
  | [], _ => none
  | p :: rest, k => if p.1 = k then some p.2 else alookup rest k

/-- `Map.set`: replaces the first binding in place, else appends (JS Maps
keep insertion order and re-setting an existing key keeps its slot). -/
def ainsert {K V : Type} [DecidableEq K] : List (K × V) → K → V → List (K × V)
  | [], k, v => [(k, v)]
  | p :: rest, k, v => if p.1 = k then (k, v) :: rest else p :: ainsert rest k v

/-- `Map.delete`. -/
def aerase {K V : Type} [DecidableEq K] : List (K × V) → K → List (K × V)
  | [], _ => []
  | p :: rest, k => if p.1 = k then aerase rest k else p :: aerase rest k

/-- All values bound to a key, in order (used to state uniqueness of records). -/
def entriesFor {K V : Type} [DecidableEq K] : List (K × V) → K → List V
  | [], _ => []
  | p :: rest, k => if p.1 = k then p.2 :: entriesFor rest k else entriesFor rest k

theorem alookup_ainsert {K V : Type} [DecidableEq K] (m : List (K × V)) (k k' : K) (v : V) :
    alookup (ainsert m k v) k' = if k = k' then some v else alookup m k' := by
  induction m with
  | nil => simp [ainsert, alookup]
  | cons p rest ih =>
    by_cases h1 : p.1 = k
    · simp only [ainsert, if_pos h1, alookup]
      by_cases h2 : k = k'
      · simp [h2]
      · rw [if_neg h2, if_neg h2, if_neg (h1 ▸ h2)]
    · simp only [ainsert, if_neg h1, alookup]
      by_cases h2 : p.1 = k'
      · have hkk : ¬ k = k' := fun hk => h1 (by rw [h2, hk])
        rw [if_pos h2, if_neg hkk, if_pos h2]
      · rw [if_neg h2, if_neg h2, ih]

theorem alookup_aerase {K V : Type} [DecidableEq K] (m : List (K × V)) (k k' : K) :
    alookup (aerase m k) k' = if k = k' then none else alookup m k' := by
  induction m with
  | nil => simp [aerase, alookup]
  | cons p rest ih =>
    by_cases h1 : p.1 = k
    · simp only [aerase, if_pos h1, ih, alookup]
      by_cases h2 : k = k'
      · simp [h2]
      · rw [if_neg h2, if_neg h2, if_neg (h1 ▸ h2)]
    · simp only [aerase, if_neg h1, alookup]
      by_cases h2 : p.1 = k'
      · have hkk : ¬ k = k' := fun hk => h1 (by rw [h2, hk])
        rw [if_pos h2, if_neg hkk, if_pos h2]
      · rw [if_neg h2, if_neg h2, ih]

theorem entriesFor_ainsert {K V : Type} [DecidableEq K] (m : List (K × V)) (k : K) (v : V) :
    entriesFor (ainsert m k v) k = v :: (entriesFor m k).tail := by
  induction m with
  | nil => simp [ainsert, entriesFor]
  | cons p rest ih =>
    by_cases h1 : p.1 = k
    · simp [ainsert, if_pos h1, entriesFor, h1]
    · simp [ainsert, if_neg h1, entriesFor, h1, ih]

theorem entriesFor_eq_nil {K V : Type} [DecidableEq K] (m : List (K × V)) (k : K)
    (h : alookup m k = none) : entriesFor m k = [] := by
  induction m with
  | nil => rfl
  | cons p rest ih =>
    simp only [alookup] at h
    by_cases h1 : p.1 = k
    · rw [if_pos h1] at h; exact absurd h (by simp)
    · rw [if_neg h1] at h
      simp [entriesFor, h1, ih h]

/-! ### JS-isms -/

/-- The JS idiom `v || d` on an optional string field: `undefined` and the
empty string are falsy and yield the default. -/
def jsOr (v : Option String) (d : String) : String :=
  match v with
  | none => d
  | some s => if s = "" then d else s

/-- `String.prototype.slice(0, n)`: the first `n` characters. -/
def jsSlice (s : String) (n : Nat) : String := String.mk (s.data.take n)

theorem jsSlice_length_le (s : String) (n : Nat) : (jsSlice s n).length ≤ n := by
  show (s.data.take n).length ≤ n
  rw [List.length_take]
  omega

/-! ### Websocket chat / presence / DM subsystem (src/server.js lines 49-174) -/

/-- Presence profile stored in `onlineUsers` at join time. -/
structure Profile where
  id : String
  name : String
  plan : String
  avatar : String
deriving DecidableEq, Repr

/-- A public chat message (the object built by the `message` handler).
`id` and `timestamp` come from the logical clock that embeds
`Date.now() + Math.random()` / `new Date().toISOString()`. -/
structure ChatMsg where
  id : Nat
  userId : String
  name : String
  plan : String
  text : String
  timestamp : Nat
  avatar : String
deriving DecidableEq, Repr

/-- A direct message (the object built by the `dm` handler). -/
structure DMMsg where
  id : Nat
  fromId : String
  fromName : String
  fromPlan : String
  toId : String
  text : String
  timestamp : Nat
  read : Bool
deriving DecidableEq, Repr

/-- Inbound frames (the `data.type` switch).  Optional fields model JS
fields that may be `undefined` on the frame. -/
inductive Frame where
  | join (userId : String) (name plan avatar : Option String)
  | message (name plan avatar text : Option String)
  | dm (toId : Option String) (fromName fromPlan text : Option String)
  | getDmHistory (withId : String)
  | typing (name : Option String) (isTyping : Bool)
  | dmTyping (toId : Option String) (name : Option String) (isTyping : Bool)
deriving DecidableEq, Repr

/-- Outbound frames (`type` values sent with `ws.send` / broadcasts). -/
inductive OutFrame where
  | history (messages : List ChatMsg)
  | onlineUsersList (users : List Profile)
  | userJoined (user : Option Profile)
  | userLeft (userId : String)
  | message (m : ChatMsg)
  | dm (m : DMMsg)
  | dmSent (m : DMMsg)
  | dmHistory (withId : String) (messages : List DMMsg)
  | typing (userId : String) (name : Option String) (isTyping : Bool)
  | dmTyping (userId : String) (name : Option String) (isTyping : Bool)
deriving DecidableEq, Repr

/-- The socket-subsystem state: `conns` is `wss.clients` (ids of the open
connections), `connUser` the per-connection `connectedUserId` binding,
and the four global maps of the source.  `now` is the logical clock. -/
structure ServerState where
  conns : List Nat
  connUser : List (Nat × String)
  userSockets : List (String × List Nat)
  publicMessages : List ChatMsg
  dmThreads : List (String × List DMMsg)
  onlineUsers : List (String × Profile)
  now : Nat
deriving DecidableEq, Repr

def initState : ServerState :=
  { conns := [], connUser := [], userSockets := [], publicMessages := [],
    dmThreads := [], onlineUsers := [], now := 0 }

/-- `getDMKey(a, b) = [a, b].sort().join(':')`. -/
def getDMKey (a b : String) : String :=
  if a ≤ b then a ++ ":" ++ b else b ++ ":" ++ a

/-- `arr.slice(-n)`: the most recent `n` elements. -/
def lastN {α : Type} (n : Nat) (l : List α) : List α := l.drop (l.length - n)

/-- `publicMessages.push(msg); if (publicMessages.length > 200) publicMessages.shift()`. -/
def pushCap (buf : List ChatMsg) (m : ChatMsg) : List ChatMsg :=
  let b := buf ++ [m]
  if b.length > 200 then b.tail else b

/-- The public buffer reached by processing a sequence of stored messages
through the push-then-shift discipline, starting empty. -/
def bufferOf (msgs : List ChatMsg) : List ChatMsg := msgs.foldl pushCap []

/-- `sendToUser`: deliver to every OPEN socket of the user.  A socket is
open iff it is still in `conns`. -/
def sendToUser (s : ServerState) (uid : String) (f : OutFrame) : List (Nat × OutFrame) :=
  (((alookup s.userSockets uid).getD []).filter (fun d => d ∈ s.conns)).map (fun d => (d, f))

/-- `broadcastToAll`: deliver to every open connection. -/
def broadcastToAll (s : ServerState) (f : OutFrame) : List (Nat × OutFrame) :=
  s.conns.map (fun d => (d, f))

/-- The `if (!connectedUserId) return` guard: the bound identity, with the
JS falsiness of the empty string accounted for. -/
def boundUser (s : ServerState) (c : Nat) : Option String :=
  match alookup s.connUser c with
  | none => none
  | some u => if u = "" then none else some u

def joinStep (s : ServerState) (c : Nat) (uid : String) (nm pl av : Option String) :
    ServerState × List (Nat × OutFrame) :=
  let socks0 := (alookup s.userSockets uid).getD []
  let socks1 := if c ∈ socks0 then socks0 else socks0 ++ [c]
  let prof : Profile :=
    { id := uid, name := jsOr nm "Anonyme", plan := jsOr pl "free", avatar := jsOr av "👤" }
  let online1 := ainsert s.onlineUsers uid prof
  let s1 := { s with connUser := ainsert s.connUser c uid,
                     userSockets := ainsert s.userSockets uid socks1,
                     onlineUsers := online1 }
  (s1, (c, OutFrame.history (lastN 50 s.publicMessages)) ::
       broadcastToAll s1 (OutFrame.onlineUsersList (online1.map (fun p => p.2))) ++
       broadcastToAll s1 (OutFrame.userJoined (alookup online1 uid)))

/-- The message object the `message` handler builds from the frame fields:
only the userId comes from the connection binding. -/
def mkChatMsg (s : ServerState) (uid : String) (nm pl av tx : Option String) : ChatMsg :=
  { id := s.now, userId := uid, name := jsOr nm "Anonyme", plan := jsOr pl "free",
    text := jsSlice (jsOr tx "") 500, timestamp := s.now, avatar := jsOr av "👤" }

def messageStep (s : ServerState) (c : Nat) (nm pl av tx : Option String) :
    ServerState × List (Nat × OutFrame) :=
  match boundUser s c with
  | none => (s, [])
  | some uid =>
    let m := mkChatMsg s uid nm pl av tx
    ({ s with publicMessages := pushCap s.publicMessages m, now := s.now + 1 },
     broadcastToAll s (OutFrame.message m))

/-- The DM object the `dm` handler builds from the frame fields. -/
def mkDMMsg (s : ServerState) (uid t : String) (fn fp tx : Option String) : DMMsg :=
  { id := s.now, fromId := uid, fromName := jsOr fn "Anonyme", fromPlan := jsOr fp "free",
    toId := t, text := jsSlice (jsOr tx "") 500, timestamp := s.now, read := false }

def dmStep (s : ServerState) (c : Nat) (toId fromName fromPlan tx : Option String) :
    ServerState × List (Nat × OutFrame) :=
  match boundUser s c with
  | none => (s, [])
  | some uid =>
    match toId with
    | none => (s, [])
    | some t =>
      if t = "" ∨ t = uid then (s, [])
      else
        let m := mkDMMsg s uid t fromName fromPlan tx
        let key := getDMKey uid t
        let thread1 := (alookup s.dmThreads key).getD [] ++ [m]
        ({ s with dmThreads := ainsert s.dmThreads key thread1, now := s.now + 1 },
         sendToUser s t (OutFrame.dm m) ++ sendToUser s uid (OutFrame.dmSent m))

def historyStep (s : ServerState) (c : Nat) (withId : String) :
    ServerState × List (Nat × OutFrame) :=
  match boundUser s c with
  | none => (s, [])
  | some uid =>
    (s, [(c, OutFrame.dmHistory withId ((alookup s.dmThreads (getDMKey uid withId)).getD []))])

def typingStep (s : ServerState) (c : Nat) (nm : Option String) (isT : Bool) :
    ServerState × List (Nat × OutFrame) :=
  match boundUser s c with
  | none => (s, [])
  | some uid => (s, broadcastToAll s (OutFrame.typing uid nm isT))

def dmTypingStep (s : ServerState) (c : Nat) (toId : Option String) (nm : Option String)
    (isT : Bool) : ServerState × List (Nat × OutFrame) :=
  match boundUser s c with
  | none => (s, [])
  | some uid =>
    match toId with
    | none => (s, [])
    | some t => (s, sendToUser s t (OutFrame.dmTyping uid nm isT))

/-- The `ws.on('message')` switch for an open connection `c`. -/
def handleFrame (s : ServerState) (c : Nat) (f : Frame) : ServerState × List (Nat × OutFrame) :=
  match f with
  | .join uid nm pl av => joinStep s c uid nm pl av
  | .message nm pl av tx => messageStep s c nm pl av tx
  | .dm toId fn fp tx => dmStep s c toId fn fp tx
  | .getDmHistory w => historyStep s c w
  | .typing nm b => typingStep s c nm b
  | .dmTyping toId nm b => dmTypingStep s c toId nm b

/-- The `ws.on('close')` handler (plus the transport removing the socket
from `wss.clients` and the per-connection binding dying with it). -/
def handleClose (s : ServerState) (c : Nat) : ServerState :=
  let base := { s with conns := s.conns.erase c, connUser := aerase s.connUser c }
  match alookup s.connUser c with
  | none => base
  | some uid =>
    if uid = "" then base
    else
      match alookup s.userSockets uid with
      | none => base
      | some socks =>
        let socks1 := socks.erase c
        if socks1 = [] then
          { base with userSockets := aerase s.userSockets uid,
                      onlineUsers := aerase s.onlineUsers uid }
        else
          { base with userSockets := ainsert s.userSockets uid socks1 }

/-- Life-cycle events of the socket subsystem. -/
inductive Event where
  | connect (c : Nat)
  | frame (c : Nat) (f : Frame)
  | close (c : Nat)
deriving DecidableEq, Repr

def applyEvent (s : ServerState) (e : Event) : ServerState :=
  match e with
  | .connect c => { s with conns := s.conns ++ [c] }
  | .frame c f => (handleFrame s c f).1
  | .close c => handleClose s c

def runTrace (s : ServerState) : List Event → ServerState
  | [] => s
  | e :: es => runTrace (applyEvent s e) es

/-- Transport validity: a `connect` uses a fresh socket, frames and closes
only happen on open sockets. -/
def okEvent (s : ServerState) (e : Event) : Bool :=
  match e with
  | .connect c => !(s.conns.contains c)
  | .frame c _ => s.conns.contains c
  | .close c => s.conns.contains c

def validFrom (s : ServerState) : List Event → Bool
  | [] => true
  | e :: es => okEvent s e && validFrom (applyEvent s e) es

/-- Join discipline: every join names a nonempty userId, and a connection
never re-joins under a different userId than the one it is bound to. -/
def joinOk (s : ServerState) (e : Event) : Bool :=
  match e with
  | .frame c (.join uid _ _ _) =>
    !(uid == "") &&
      (match alookup s.connUser c with
       | none => true
       | some u => u == uid)
  | _ => true

def disciplinedFrom (s : ServerState) : List Event → Bool
  | [] => true
  | e :: es => joinOk s e && disciplinedFrom (applyEvent s e) es

/-- The socket set recorded for a user (`userSockets.get(uid)`, empty if absent). -/
def socksOf (s : ServerState) (uid : String) : List Nat :=
  (alookup s.userSockets uid).getD []

/-! ### Vote guard (src/server.js lines 252-283, in-memory branch) -/

structure Project where
  id : String
  votes : Nat
deriving DecidableEq, Repr

/-- `inMemoryProjects` and `inMemoryVotes`. -/
structure VoteState where
  inMemoryProjects : List Project
  inMemoryVotes : List (String × List String)
deriving DecidableEq, Repr

/-- Responses of `POST /api/projects/:id/vote`: 400 missing userId,
`{ ok:false, reason:'already_voted' }`, or `{ ok:true, votes }`. -/
inductive VoteResult where
  | badRequest
  | alreadyVoted
  | accepted (votes : Nat)
deriving DecidableEq, Repr

/-- `proj.votes = (proj.votes || 0) + 1` on the first project found by id. -/
def bumpVotes : List Project → String → List Project
  | [], _ => []
  | p :: ps, id => if p.id = id then { p with votes := p.votes + 1 } :: ps else p :: bumpVotes ps id

/-- The vote handler body after the `userId` presence check. -/
def tryVote (s : VoteState) (id userId : String) : VoteState × VoteResult :=
  let voters := (alookup s.inMemoryVotes id).getD []
  if userId ∈ voters then (s, .alreadyVoted)
  else
    let votes1 := ainsert s.inMemoryVotes id (voters ++ [userId])
    match s.inMemoryProjects.find? (fun p => p.id = id) with
    | some p =>
      ({ inMemoryProjects := bumpVotes s.inMemoryProjects id, inMemoryVotes := votes1 },
       .accepted (p.votes + 1))
    | none => ({ s with inMemoryVotes := votes1 }, .accepted 0)

/-- `POST /api/projects/:id/vote` including the `if (!userId)` guard. -/
def voteRoute (s : VoteState) (id : String) (userId : Option String) : VoteState × VoteResult :=
  match userId with
  | none => (s, .badRequest)
  | some u => if u = "" then (s, .badRequest) else tryVote s id u

/-! ### User registration (src/server.js lines 181-201, in-memory branch) -/

/-- The body of `POST /api/register-user`; absent fields are `undefined`. -/
structure RegisterReq where
  name : Option String
  email : Option String
  plan : Option String
  createdAt : Option Nat
  projectsCount : Option Nat
  username : Option String
  avatar : Option String
deriving DecidableEq, Repr

/-- The stored user record (`{...existing, ...userObj, createdAt}`). -/
structure UserRec where
  name : Option String
  email : String
  username : Option String
  plan : String
  avatar : Option String
  projectsCount : Nat
  updatedAt : Nat
  createdAt : Nat
deriving DecidableEq, Repr

inductive RegResult where
  | ok
  | emailRequired
deriving DecidableEq, Repr

/-- The `userObj` built by the handler, with the stored `createdAt`. -/
def mkUserRec (r : RegisterReq) (e : String) (upd created : Nat) : UserRec :=
  { name := r.name, email := e, username := r.username, plan := jsOr r.plan "free",
    avatar := r.avatar, projectsCount := r.projectsCount.getD 0,
    updatedAt := upd, createdAt := created }

/-- The in-memory branch of the registration handler: upsert by email into
`inMemoryUsers` with `createdAt: existing.createdAt || new Date()`. -/
def registerUser (users : List (String × UserRec)) (now : Nat) (r : RegisterReq) :
    List (String × UserRec) × RegResult :=
  match r.email with
  | none => (users, .emailRequired)
  | some e =>
    if e = "" then (users, .emailRequired)
    else
      let created := match alookup users e with
        | some ex => ex.createdAt
        | none => now
      (ainsert users e (mkUserRec r e now created), .ok)

/-! ### Buffer lemmas -/

theorem pushCap_drop (l : List ChatMsg) (m : ChatMsg) :
    pushCap (l.drop (l.length - 200)) m = (l ++ [m]).drop ((l ++ [m]).length - 200) := by
  unfold pushCap
  by_cases h : l.length < 200
  · have h0 : l.length - 200 = 0 := by omega
    have h1 : (l ++ [m]).length - 200 = 0 := by simp; omega
    simp only [h0, h1, List.drop_zero]
    rw [if_neg (by simp; omega)]
  · have hlen : (l.drop (l.length - 200)).length = 200 := by rw [List.length_drop]; omega
    rw [if_pos (by simp [hlen])]
    have hne : l.drop (l.length - 200) ≠ [] := by
      intro hnil
      rw [hnil] at hlen
      simp at hlen
    rw [List.tail_append_singleton_of_ne_nil hne, List.tail_drop,
        List.drop_append_of_le_length
          (by rw [List.length_append]; simp only [List.length_singleton]; omega)]
    have harith : (l ++ [m]).length - 200 = l.length - 200 + 1 := by
      rw [List.length_append]
      simp only [List.length_singleton]
      omega
    rw [harith]

theorem bufferOf_eq (msgs : List ChatMsg) :
    bufferOf msgs = msgs.drop (msgs.length - 200) := by
  induction msgs using List.reverseRecOn with
  | nil => rfl
  | append_singleton l m ih =>
    unfold bufferOf at ih ⊢
    rw [List.foldl_append, List.foldl_cons, List.foldl_nil, ih, pushCap_drop]

theorem bufferOf_length_le (msgs : List ChatMsg) : (bufferOf msgs).length ≤ 200 := by
  rw [bufferOf_eq, List.length_drop]
  omega

theorem lastN_bufferOf (msgs : List ChatMsg) :
    lastN 50 (bufferOf msgs) = lastN 50 msgs := by
  unfold lastN
  rw [bufferOf_eq, List.length_drop, List.drop_drop]
  congr 1
  omega

theorem lastN_length {α : Type} (n : Nat) (l : List α) :
    (lastN n l).length = min n l.length := by
  unfold lastN
  rw [List.length_drop]
  omega

theorem getLast?_pushCap (buf : List ChatMsg) (m : ChatMsg) :
    (pushCap buf m).getLast? = some m := by
  unfold pushCap
  by_cases h : (buf ++ [m]).length > 200
  · rw [if_pos h]
    have hne : buf ≠ [] := by
      intro hnil
      rw [hnil] at h
      simp at h
    rw [List.tail_append_singleton_of_ne_nil hne, List.getLast?_concat]
  · rw [if_neg h, List.getLast?_concat]

theorem length_pushCap (buf : List ChatMsg) (m : ChatMsg) (h : buf.length ≤ 200) :
    (pushCap buf m).length = min (buf.length + 1) 200 := by
  unfold pushCap
  by_cases hgt : (buf ++ [m]).length > 200
  · rw [if_pos hgt]
    rw [List.length_tail]
    simp at hgt ⊢
    omega
  · rw [if_neg hgt]
    simp at hgt ⊢
    omega

theorem find?_bumpVotes (ps : List Project) (id : String) (p : Project)
    (h : ps.find? (fun q => q.id = id) = some p) :
    (bumpVotes ps id).find? (fun q => q.id = id) = some { p with votes := p.votes + 1 } := by
  induction ps with
  | nil => simp [List.find?] at h
  | cons a rest ih =>
    by_cases ha : a.id = id
    · rw [List.find?_cons_of_pos _ (by simp [ha])] at h
      have hap : a = p := by injection h
      subst hap
      unfold bumpVotes
      rw [if_pos ha]
      exact List.find?_cons_of_pos _ (by simp [ha])
    · rw [List.find?_cons_of_neg _ (by simp [ha])] at h
      unfold bumpVotes
      rw [if_neg ha, List.find?_cons_of_neg _ (by simp [ha])]
      exact ih h

/-! ### Claims about the vote guard -/

/-- Claim C1 (amended): for a vote whose userId is not yet in the target's
voter set, the voter is added to the set; if a project record with the
target id exists, its counter increments by exactly one and the new count
is returned (0 to 1 for the first voter, 1 to 2 for the second); but for a
target id with no project record, no counter is incremented and the
response reports votes = 0, not the incremented count the claim promises. -/
theorem C1_vote_accept (s : VoteState) (id uid : String)
    (h : uid ∉ (alookup s.inMemoryVotes id).getD []) :
    alookup (tryVote s id uid).1.inMemoryVotes id =
      some ((alookup s.inMemoryVotes id).getD [] ++ [uid]) ∧
    (∀ p, s.inMemoryProjects.find? (fun q => q.id = id) = some p →
      (tryVote s id uid).2 = VoteResult.accepted (p.votes + 1) ∧
      (tryVote s id uid).1.inMemoryProjects.find? (fun q => q.id = id) =
        some { p with votes := p.votes + 1 }) ∧
    (s.inMemoryProjects.find? (fun q => q.id = id) = none →
      (tryVote s id uid).2 = VoteResult.accepted 0 ∧
      (tryVote s id uid).1.inMemoryProjects = s.inMemoryProjects) := by
  refine ⟨?_, ?_, ?_⟩
  · simp only [tryVote, if_neg h]
    cases hf : s.inMemoryProjects.find? (fun q => q.id = id) with
    | none => simp [hf, alookup_ainsert]
    | some p => simp [hf, alookup_ainsert]
  · intro p hp
    have heq : tryVote s id uid =
        (VoteState.mk (bumpVotes s.inMemoryProjects id)
          (ainsert s.inMemoryVotes id ((alookup s.inMemoryVotes id).getD [] ++ [uid])),
         VoteResult.accepted (p.votes + 1)) := by
      simp only [tryVote, if_neg h, hp]
    rw [heq]
    exact ⟨rfl, find?_bumpVotes s.inMemoryProjects id p hp⟩
  · intro hn
    have heq : tryVote s id uid =
        ({ s with inMemoryVotes :=
            ainsert s.inMemoryVotes id ((alookup s.inMemoryVotes id).getD [] ++ [uid]) },
         VoteResult.accepted 0) := by
      simp only [tryVote, if_neg h, hn]
    rw [heq]
    exact ⟨rfl, rfl⟩

/-- Witness for C1: fresh project p1 with count 0, first voter gets
accepted with new count 1. -/
theorem C1_vote_accept_witness :
    ("u1" ∉ (alookup (VoteState.mk [⟨"p1", 0⟩] []).inMemoryVotes "p1").getD []) ∧
    (∀ p, (VoteState.mk [⟨"p1", 0⟩] []).inMemoryProjects.find? (fun q => q.id = "p1") = some p →
      (tryVote (VoteState.mk [⟨"p1", 0⟩] []) "p1" "u1").2 = VoteResult.accepted (p.votes + 1) ∧
      (tryVote (VoteState.mk [⟨"p1", 0⟩] []) "p1" "u1").1.inMemoryProjects.find?
        (fun q => q.id = "p1") = some { p with votes := p.votes + 1 }) :=
  ⟨by decide, (C1_vote_accept (VoteState.mk [⟨"p1", 0⟩] []) "p1" "u1" (by decide)).2.1⟩

/-- Counterexample for C1 as stated: voting on a target id with no project
record returns votes = 0, not the new count 1 that the 0-to-1 increment
promised by the claim would require, although the vote is accepted. -/
theorem C1_counterexample :
    (tryVote (VoteState.mk [] []) "p1" "u1").2 = VoteResult.accepted 0 ∧
    (tryVote (VoteState.mk [] []) "p1" "u1").2 ≠ VoteResult.accepted 1 ∧
    (tryVote (VoteState.mk [] []) "p1" "u1").1.inMemoryVotes = [("p1", ["u1"])] := by
  decide

/-- Claim C2: a vote whose userId is already in the target's voter set
returns the negative acknowledgment `{ok: false, reason: 'already_voted'}`
without mutating any state, and a retry of the same pair returns the same
negative result (idempotent). -/
theorem C2_duplicate_vote (s : VoteState) (id uid : String)
    (h : uid ∈ (alookup s.inMemoryVotes id).getD []) :
    tryVote s id uid = (s, VoteResult.alreadyVoted) ∧
    tryVote (tryVote s id uid).1 id uid = (s, VoteResult.alreadyVoted) := by
  have h1 : tryVote s id uid = (s, VoteResult.alreadyVoted) := by
    simp only [tryVote, if_pos h]
  refine ⟨h1, ?_⟩
  rw [h1]
  exact h1

/-- Witness for C2: u1 already voted on p1; the call returns already_voted
and changes nothing, as does the retry. -/
theorem C2_duplicate_vote_witness :
    ("u1" ∈ (alookup (VoteState.mk [⟨"p1", 1⟩] [("p1", ["u1"])]).inMemoryVotes "p1").getD []) ∧
    tryVote (VoteState.mk [⟨"p1", 1⟩] [("p1", ["u1"])]) "p1" "u1" =
      (VoteState.mk [⟨"p1", 1⟩] [("p1", ["u1"])], VoteResult.alreadyVoted) :=
  ⟨by decide,
   (C2_duplicate_vote (VoteState.mk [⟨"p1", 1⟩] [("p1", ["u1"])]) "p1" "u1" (by decide)).1⟩

/-! ### Claim about registration -/

/-- Claim C7: registering the same email twice yields exactly one record
for that email, with the creation timestamp of the first call and all
mutable fields (name, username, plan, avatar, projectsCount) from the
last call. -/
theorem C7_idempotent_registration (users0 : List (String × UserRec)) (e : String)
    (r1 r2 : RegisterReq) (t1 t2 : Nat)
    (h1 : r1.email = some e) (h2 : r2.email = some e) (he : e ≠ "")
    (hfresh : alookup users0 e = none) :
    (registerUser users0 t1 r1).2 = RegResult.ok ∧
    (registerUser (registerUser users0 t1 r1).1 t2 r2).2 = RegResult.ok ∧
    entriesFor (registerUser (registerUser users0 t1 r1).1 t2 r2).1 e =
      [mkUserRec r2 e t2 t1] := by
  have step1 : registerUser users0 t1 r1 =
      (ainsert users0 e (mkUserRec r1 e t1 t1), RegResult.ok) := by
    simp only [registerUser, h1, hfresh, if_neg he]
  have hlook2 : alookup (ainsert users0 e (mkUserRec r1 e t1 t1)) e =
      some (mkUserRec r1 e t1 t1) := by
    simp [alookup_ainsert]
  have step2 : registerUser (registerUser users0 t1 r1).1 t2 r2 =
      (ainsert (registerUser users0 t1 r1).1 e (mkUserRec r2 e t2 t1), RegResult.ok) := by
    rw [step1]
    simp only [registerUser, h2, if_neg he, hlook2]
    rfl
  refine ⟨by rw [step1], by rw [step2], ?_⟩
  rw [step2]
  rw [entriesFor_ainsert, step1]
  rw [entriesFor_ainsert, entriesFor_eq_nil users0 e hfresh]
  rfl

/-- Witness for C7: two concrete registrations of e@x with names N1 then
N2 at times 5 then 7 leave one record with name N2, plan pro,
projectsCount 3, updatedAt 7 and createdAt 5. -/
theorem C7_idempotent_registration_witness :
    entriesFor (registerUser (registerUser []
        5 (RegisterReq.mk (some "N1") (some "e@x") none none none none none)).1
        7 (RegisterReq.mk (some "N2") (some "e@x") (some "pro") none (some 3) none none)).1 "e@x" =
      [mkUserRec (RegisterReq.mk (some "N2") (some "e@x") (some "pro") none (some 3) none none)
        "e@x" 7 5] :=
  (C7_idempotent_registration [] "e@x"
    (RegisterReq.mk (some "N1") (some "e@x") none none none none none)
    (RegisterReq.mk (some "N2") (some "e@x") (some "pro") none (some 3) none none)
    5 7 rfl rfl (by decide) rfl).2.2

/-! ### Claim about the bounded buffer -/

/-- Claim C8: the public buffer is a bounded ordered buffer: after any
sequence of message appends its length never exceeds 200, the buffer is
exactly the most recent suffix of the append sequence (so only the oldest
messages are evicted and insertion order is preserved), each step is the
push-then-shift discipline, and the newest message sits at the end. -/
theorem C8_bounded_buffer (msgs : List ChatMsg) :
    (bufferOf msgs).length ≤ 200 ∧
    bufferOf msgs = msgs.drop (msgs.length - 200) ∧
    (∀ m, bufferOf (msgs ++ [m]) = pushCap (bufferOf msgs) m) ∧
    (∀ m, (bufferOf (msgs ++ [m])).getLast? = some m) := by
  refine ⟨bufferOf_length_le msgs, bufferOf_eq msgs, ?_, ?_⟩ <;> intro m
  · unfold bufferOf
    rw [List.foldl_append, List.foldl_cons, List.foldl_nil]
  · unfold bufferOf
    rw [List.foldl_append, List.foldl_cons, List.foldl_nil, getLast?_pushCap]

/-! ### Claims about the realtime handlers -/

theorem jsOr_some_ne (v : String) (d : String) (h : v ≠ "") : jsOr (some v) d = v := by
  simp [jsOr, h]

/-- Claim C4: a join sends the requesting connection, and only it, a
history frame holding exactly the most recent min(50, total sent) public
messages in insertion order (a suffix of the send sequence): after 500
sends the replay is the latest 50, never the full history, never fewer. -/
theorem C4_history_replay (s : ServerState) (c : Nat) (uid : String)
    (nm pl av : Option String) (msgs : List ChatMsg)
    (hbuf : s.publicMessages = bufferOf msgs) :
    ((c, OutFrame.history (lastN 50 msgs)) ∈ (handleFrame s c (.join uid nm pl av)).2) ∧
    (∀ d h, (d, OutFrame.history h) ∈ (handleFrame s c (.join uid nm pl av)).2 →
        d = c ∧ h = lastN 50 msgs) ∧
    (lastN 50 msgs).length = min 50 msgs.length ∧
    lastN 50 msgs = msgs.drop (msgs.length - 50) := by
  have hl : lastN 50 s.publicMessages = lastN 50 msgs := by rw [hbuf, lastN_bufferOf]
  refine ⟨?_, ?_, lastN_length 50 msgs, rfl⟩
  · simp only [handleFrame, joinStep, hl]
    exact List.mem_cons_self _ _
  · intro d h hmem
    simp only [handleFrame, joinStep, broadcastToAll, List.mem_cons, List.mem_append,
      List.mem_map, Prod.mk.injEq] at hmem
    rcases hmem with (⟨hd, hh⟩ | hB) | hB
    · injection hh with hh2
      exact ⟨hd, by rw [hh2, hl]⟩
    · exfalso
      obtain ⟨x, hx⟩ := hB
      simp at hx
    · exfalso
      obtain ⟨x, hx⟩ := hB
      simp at hx

/-- Witness for C4: joining after three sends replays all three messages. -/
theorem C4_history_replay_witness :
    ((0, OutFrame.history (lastN 50 [ChatMsg.mk 1 "u" "n" "free" "x" 1 "a",
        ChatMsg.mk 2 "u" "n" "free" "y" 2 "a", ChatMsg.mk 3 "u" "n" "free" "z" 3 "a"])) ∈
      (handleFrame { initState with
          publicMessages := bufferOf [ChatMsg.mk 1 "u" "n" "free" "x" 1 "a",
            ChatMsg.mk 2 "u" "n" "free" "y" 2 "a", ChatMsg.mk 3 "u" "n" "free" "z" 3 "a"],
          conns := [0] } 0 (.join "u" none none none)).2) ∧
    (lastN 50 [ChatMsg.mk 1 "u" "n" "free" "x" 1 "a", ChatMsg.mk 2 "u" "n" "free" "y" 2 "a",
        ChatMsg.mk 3 "u" "n" "free" "z" 3 "a"]).length =
      min 50 [ChatMsg.mk 1 "u" "n" "free" "x" 1 "a", ChatMsg.mk 2 "u" "n" "free" "y" 2 "a",
        ChatMsg.mk 3 "u" "n" "free" "z" 3 "a"].length :=
  ⟨(C4_history_replay { initState with
      publicMessages := bufferOf [ChatMsg.mk 1 "u" "n" "free" "x" 1 "a",
        ChatMsg.mk 2 "u" "n" "free" "y" 2 "a", ChatMsg.mk 3 "u" "n" "free" "z" 3 "a"],
      conns := [0] } 0 "u" none none none _ rfl).1,
   (C4_history_replay { initState with
      publicMessages := bufferOf [ChatMsg.mk 1 "u" "n" "free" "x" 1 "a",
        ChatMsg.mk 2 "u" "n" "free" "y" 2 "a", ChatMsg.mk 3 "u" "n" "free" "z" 3 "a"],
      conns := [0] } 0 "u" none none none _ rfl).2.2.1⟩

/-- Claim C5: a message frame on a joined connection appends to the public
buffer a message whose text is the frame text truncated to 500 characters,
with a fresh id and timestamp, the buffer grows by one up to the capacity
of 200, and exactly one message event carrying it goes to every open
connection (the sender's own connections included). -/
theorem C5_message_broadcast (s : ServerState) (c : Nat) (uid : String)
    (nm pl av tx : Option String)
    (hj : boundUser s c = some uid)
    (hcap : s.publicMessages.length ≤ 200)
    (hids : ∀ m ∈ s.publicMessages, m.id < s.now) :
    (handleFrame s c (.message nm pl av tx)).1.publicMessages =
      pushCap s.publicMessages (mkChatMsg s uid nm pl av tx) ∧
    (mkChatMsg s uid nm pl av tx).text = jsSlice (jsOr tx "") 500 ∧
    (mkChatMsg s uid nm pl av tx).text.length ≤ 500 ∧
    (handleFrame s c (.message nm pl av tx)).1.publicMessages.getLast? =
      some (mkChatMsg s uid nm pl av tx) ∧
    (handleFrame s c (.message nm pl av tx)).1.publicMessages.length =
      min (s.publicMessages.length + 1) 200 ∧
    (∀ m ∈ s.publicMessages, m.id ≠ (mkChatMsg s uid nm pl av tx).id) ∧
    (handleFrame s c (.message nm pl av tx)).2 =
      s.conns.map (fun d => (d, OutFrame.message (mkChatMsg s uid nm pl av tx))) := by
  have hred : handleFrame s c (.message nm pl av tx) =
      ({ s with publicMessages := pushCap s.publicMessages (mkChatMsg s uid nm pl av tx),
                now := s.now + 1 },
       s.conns.map (fun d => (d, OutFrame.message (mkChatMsg s uid nm pl av tx)))) := by
    simp only [handleFrame, messageStep, hj, broadcastToAll]
  rw [hred]
  refine ⟨rfl, rfl, jsSlice_length_le _ 500, getLast?_pushCap _ _,
    length_pushCap _ _ hcap, ?_, rfl⟩
  intro m hm
  exact Nat.ne_of_lt (hids m hm)

/-- Witness for C5: a joined connection sends "hello"; it lands at the
end of the buffer and is broadcast to both open connections. -/
theorem C5_message_broadcast_witness :
    boundUser { initState with conns := [0, 1], connUser := [(0, "u")] } 0 = some "u" ∧
    (handleFrame { initState with conns := [0, 1], connUser := [(0, "u")] } 0
        (.message (some "Bob") none none (some "hello"))).2 =
      [0, 1].map (fun d => (d, OutFrame.message
        (mkChatMsg { initState with conns := [0, 1], connUser := [(0, "u")] } "u"
          (some "Bob") none none (some "hello")))) :=
  ⟨by decide,
   (C5_message_broadcast { initState with conns := [0, 1], connUser := [(0, "u")] } 0 "u"
      (some "Bob") none none (some "hello") (by decide) (by decide)
      (by intro m hm; cases hm)).2.2.2.2.2.2⟩

/-- Claim C9: every message, dm, get_dm_history, typing or dm_typing frame
on a connection that never processed a join is silently dropped: state
unchanged (no buffer or thread mutated, connection stays open) and no
frame sent to anyone. -/
theorem C9_anonymous_drop (s : ServerState) (c : Nat)
    (h : alookup s.connUser c = none) :
    (∀ nm pl av tx, handleFrame s c (.message nm pl av tx) = (s, [])) ∧
    (∀ toId fn fp tx, handleFrame s c (.dm toId fn fp tx) = (s, [])) ∧
    (∀ w, handleFrame s c (.getDmHistory w) = (s, [])) ∧
    (∀ nm b, handleFrame s c (.typing nm b) = (s, [])) ∧
    (∀ toId nm b, handleFrame s c (.dmTyping toId nm b) = (s, [])) := by
  have hb : boundUser s c = none := by simp [boundUser, h]
  refine ⟨?_, ?_, ?_, ?_, ?_⟩ <;> intros <;>
    simp [handleFrame, messageStep, dmStep, historyStep, typingStep, dmTypingStep, hb]

/-- Witness for C9: a fresh connection that never joined sends a message
frame; nothing changes and nothing is sent. -/
theorem C9_anonymous_drop_witness :
    alookup ({ initState with conns := [7] } : ServerState).connUser 7 = none ∧
    handleFrame { initState with conns := [7] } 7
        (.message (some "n") none none (some "hi")) =
      ({ initState with conns := [7] }, []) :=
  ⟨by decide,
   (C9_anonymous_drop { initState with conns := [7] } 7 (by decide)).1
     (some "n") none none (some "hi")⟩

theorem getDMKey_comm (x y : String) : getDMKey x y = getDMKey y x := by
  unfold getDMKey
  rcases le_total x y with h | h
  · by_cases h2 : y ≤ x
    · have hxy : x = y := le_antisymm h h2
      subst hxy
      rfl
    · rw [if_pos h, if_neg h2]
  · by_cases h2 : x ≤ y
    · have hxy : x = y := le_antisymm h2 h
      subst hxy
      rfl
    · rw [if_neg h2, if_pos h]

theorem messageStep_reduce (s : ServerState) (c : Nat) (uid : String)
    (hj : boundUser s c = some uid) (nm pl av tx : Option String) :
    (handleFrame s c (.message nm pl av tx)).1 =
      { s with publicMessages := pushCap s.publicMessages (mkChatMsg s uid nm pl av tx),
               now := s.now + 1 } := by
  simp only [handleFrame, messageStep, hj]

theorem boundUser_after_message (s : ServerState) (c c2 : Nat) (uid : String)
    (hj : boundUser s c = some uid) (nm pl av tx : Option String) :
    boundUser (handleFrame s c (.message nm pl av tx)).1 c2 = boundUser s c2 := by
  rw [messageStep_reduce s c uid hj]
  rfl

/-- Claim C10: the sender display fields of a stored public message or DM
come from the individual inbound frame (with defaults Anonyme, free and
the bust emoji when absent), never from the presence profile stored at
join; only the userId comes from the connection binding; the result is
invariant under any change of the presence registry, and two frames from
one connection carrying different names store different sender names. -/
theorem C10_sender_fields_from_frame (s : ServerState) (c : Nat) (uid : String)
    (hj : boundUser s c = some uid) :
    (∀ nm pl av tx,
      (handleFrame s c (.message nm pl av tx)).1.publicMessages.getLast? =
        some (mkChatMsg s uid nm pl av tx) ∧
      (mkChatMsg s uid nm pl av tx).name = jsOr nm "Anonyme" ∧
      (mkChatMsg s uid nm pl av tx).plan = jsOr pl "free" ∧
      (mkChatMsg s uid nm pl av tx).avatar = jsOr av "👤" ∧
      (mkChatMsg s uid nm pl av tx).userId = uid) ∧
    (∀ ou nm pl av tx,
      (handleFrame { s with onlineUsers := ou } c (.message nm pl av tx)).2 =
        (handleFrame s c (.message nm pl av tx)).2) ∧
    (∀ t fn fp tx, t ≠ "" → t ≠ uid →
      alookup (handleFrame s c (.dm (some t) fn fp tx)).1.dmThreads (getDMKey uid t) =
        some ((alookup s.dmThreads (getDMKey uid t)).getD [] ++ [mkDMMsg s uid t fn fp tx]) ∧
      (mkDMMsg s uid t fn fp tx).fromName = jsOr fn "Anonyme" ∧
      (mkDMMsg s uid t fn fp tx).fromPlan = jsOr fp "free") ∧
    (∀ n1 n2 : String, n1 ≠ "" → n2 ≠ "" →
      ((handleFrame s c (.message (some n1) none none none)).1.publicMessages.getLast?.map
          ChatMsg.name = some n1) ∧
      ((handleFrame (handleFrame s c (.message (some n1) none none none)).1 c
          (.message (some n2) none none none)).1.publicMessages.getLast?.map
          ChatMsg.name = some n2)) := by
  refine ⟨?_, ?_, ?_, ?_⟩
  · intro nm pl av tx
    rw [messageStep_reduce s c uid hj]
    exact ⟨getLast?_pushCap _ _, rfl, rfl, rfl, rfl⟩
  · intro ou nm pl av tx
    have hj2 : boundUser { s with onlineUsers := ou } c = some uid := hj
    simp only [handleFrame, messageStep, hj, hj2, broadcastToAll]
    rfl
  · intro t fn fp tx ht htu
    refine ⟨?_, rfl, rfl⟩
    have hred : (handleFrame s c (.dm (some t) fn fp tx)).1 =
        { s with dmThreads := ainsert s.dmThreads (getDMKey uid t)
                   ((alookup s.dmThreads (getDMKey uid t)).getD [] ++ [mkDMMsg s uid t fn fp tx]),
                 now := s.now + 1 } := by
      simp only [handleFrame, dmStep, hj]
      rw [if_neg (not_or.mpr ⟨ht, htu⟩)]
    rw [hred]
    simp [alookup_ainsert]
  · intro n1 n2 h1 h2
    have hj1 : boundUser (handleFrame s c (.message (some n1) none none none)).1 c =
        some uid := by
      rw [boundUser_after_message s c c uid hj]
      exact hj
    constructor
    · rw [messageStep_reduce s c uid hj, getLast?_pushCap]
      simp [mkChatMsg, jsOr_some_ne n1 _ h1]
    · rw [messageStep_reduce _ c uid hj1, getLast?_pushCap]
      simp [mkChatMsg, jsOr_some_ne n2 _ h2]

/-- Witness for C10: a joined connection whose join profile said Alice
sends a frame naming Bob; the stored message carries Bob. -/
theorem C10_sender_fields_from_frame_witness :
    boundUser
      { initState with
        conns := [0], connUser := [(0, "u")],
        onlineUsers := [("u", Profile.mk "u" "Alice" "free" "a")] } 0 = some "u" ∧
    (handleFrame
      { initState with
        conns := [0], connUser := [(0, "u")],
        onlineUsers := [("u", Profile.mk "u" "Alice" "free" "a")] } 0
      (.message (some "Bob") none none none)).1.publicMessages.getLast?.map
      ChatMsg.name = some "Bob" :=
  ⟨by decide,
   ((C10_sender_fields_from_frame
      { initState with
        conns := [0], connUser := [(0, "u")],
        onlineUsers := [("u", Profile.mk "u" "Alice" "free" "a")] } 0 "u"
      (by decide)).2.2.2 "Bob" "x" (by decide) (by decide)).1⟩

/-- Claim C6: the DM thread key is symmetric in its two arguments, so both
parties address the same thread: two DMs from a to b followed by a
get_dm_history(withId = a) issued by b return exactly both messages in
send order. -/
theorem C6_dm_key_symmetric (s : ServerState) (c c' : Nat) (a b : String)
    (t1 t2 : Option String)
    (hca : boundUser s c = some a) (hcb : boundUser s c' = some b)
    (hb : b ≠ "") (hba : b ≠ a)
    (hthread : alookup s.dmThreads (getDMKey a b) = none) :
    (∀ x y : String, getDMKey x y = getDMKey y x) ∧
    (handleFrame (handleFrame (handleFrame s c (.dm (some b) none none t1)).1 c
        (.dm (some b) none none t2)).1 c' (.getDmHistory a)).2 =
      [(c', OutFrame.dmHistory a
        [mkDMMsg s a b none none t1,
         mkDMMsg (handleFrame s c (.dm (some b) none none t1)).1 a b none none t2])] := by
  refine ⟨getDMKey_comm, ?_⟩
  have hcond : ¬ (b = "" ∨ b = a) := not_or.mpr ⟨hb, hba⟩
  have hd1 : (handleFrame s c (.dm (some b) none none t1)).1 =
      { s with dmThreads := ainsert s.dmThreads (getDMKey a b) [mkDMMsg s a b none none t1],
               now := s.now + 1 } := by
    simp only [handleFrame, dmStep, hca]
    rw [if_neg hcond]
    simp [hthread]
  rw [hd1]
  set s1 : ServerState :=
    { s with dmThreads := ainsert s.dmThreads (getDMKey a b) [mkDMMsg s a b none none t1],
             now := s.now + 1 } with hs1
  have hja : boundUser s1 c = some a := hca
  have hth1 : alookup s1.dmThreads (getDMKey a b) = some [mkDMMsg s a b none none t1] := by
    rw [hs1]
    simp [alookup_ainsert]
  have hd2 : (handleFrame s1 c (.dm (some b) none none t2)).1 =
      { s1 with dmThreads := ainsert s1.dmThreads (getDMKey a b)
                  [mkDMMsg s a b none none t1, mkDMMsg s1 a b none none t2],
                now := s1.now + 1 } := by
    simp only [handleFrame, dmStep, hja]
    rw [if_neg hcond]
    simp [hth1]
  rw [hd2]
  set s2 : ServerState :=
    { s1 with dmThreads := ainsert s1.dmThreads (getDMKey a b)
                [mkDMMsg s a b none none t1, mkDMMsg s1 a b none none t2],
              now := s1.now + 1 } with hs2
  have hjb : boundUser s2 c' = some b := hcb
  have hth2 : alookup s2.dmThreads (getDMKey b a) =
      some [mkDMMsg s a b none none t1, mkDMMsg s1 a b none none t2] := by
    rw [getDMKey_comm b a, hs2]
    simp [alookup_ainsert]
  simp only [handleFrame, historyStep, hjb, hth2]
  rfl

/-- Witness for C6: a on connection 0 sends two DMs to b; b on connection
1 requests the history with a and receives exactly the two messages. -/
theorem C6_dm_key_symmetric_witness :
    getDMKey "x" "y" = getDMKey "y" "x" ∧
    (handleFrame (handleFrame (handleFrame
        { initState with conns := [0, 1], connUser := [(0, "a"), (1, "b")] } 0
        (.dm (some "b") none none (some "one"))).1 0
        (.dm (some "b") none none (some "two"))).1 1 (.getDmHistory "a")).2 =
      [(1, OutFrame.dmHistory "a"
        [mkDMMsg { initState with conns := [0, 1], connUser := [(0, "a"), (1, "b")] }
           "a" "b" none none (some "one"),
         mkDMMsg (handleFrame
             { initState with conns := [0, 1], connUser := [(0, "a"), (1, "b")] } 0
             (.dm (some "b") none none (some "one"))).1
           "a" "b" none none (some "two")])] :=
  ⟨(C6_dm_key_symmetric { initState with conns := [0, 1], connUser := [(0, "a"), (1, "b")] }
      0 1 "a" "b" (some "one") (some "two") (by decide) (by decide) (by decide) (by decide)
      (by decide)).1 "x" "y",
   (C6_dm_key_symmetric { initState with conns := [0, 1], connUser := [(0, "a"), (1, "b")] }
      0 1 "a" "b" (some "one") (some "two") (by decide) (by decide) (by decide) (by decide)
      (by decide)).2⟩

/-! ### The presence invariant (claim C3) -/

/-- Reachable-state invariant of the socket subsystem under the join
discipline: no connection is bound to the empty identity; the presence
roster and the socket map have the same domain; every recorded socket set
is a nonempty duplicate-free list of open connections bound to its owner;
and every bound connection is open and recorded under its owner. -/
def Inv (s : ServerState) : Prop :=
  (∀ c : Nat, alookup s.connUser c ≠ some "") ∧
  (∀ uid : String, (alookup s.onlineUsers uid).isSome ↔ (alookup s.userSockets uid).isSome) ∧
  (∀ uid socks, alookup s.userSockets uid = some socks →
    socks ≠ [] ∧ socks.Nodup ∧ ∀ d ∈ socks, d ∈ s.conns ∧ alookup s.connUser d = some uid) ∧
  (∀ d uid, alookup s.connUser d = some uid → d ∈ s.conns ∧ d ∈ socksOf s uid)

theorem inv_of_fields (s s' : ServerState) (h : Inv s)
    (hc : s'.conns = s.conns) (hu : s'.connUser = s.connUser)
    (hs : s'.userSockets = s.userSockets) (ho : s'.onlineUsers = s.onlineUsers) :
    Inv s' := by
  obtain ⟨h0, h1, h2, h3⟩ := h
  unfold Inv socksOf
  rw [hc, hu, hs, ho]
  exact ⟨h0, h1, h2, h3⟩

theorem inv_initState : Inv initState := by
  refine ⟨?_, ?_, ?_, ?_⟩
  · intro c h
    simp [initState, alookup] at h
  · intro u
    simp [initState, alookup]
  · intro u socks h
    simp [initState, alookup] at h
  · intro d u h
    simp [initState, alookup] at h

theorem inv_connect (s : ServerState) (c : Nat) (h : Inv s) :
    Inv { s with conns := s.conns ++ [c] } := by
  obtain ⟨h0, h1, h2, h3⟩ := h
  refine ⟨h0, h1, ?_, ?_⟩
  · intro u socks hlk
    obtain ⟨a, b, m⟩ := h2 u socks hlk
    exact ⟨a, b, fun d hd => ⟨List.mem_append_left _ (m d hd).1, (m d hd).2⟩⟩
  · intro d u hlk
    obtain ⟨a, b⟩ := h3 d u hlk
    exact ⟨List.mem_append_left _ a, b⟩

theorem joinStep_state (s : ServerState) (c : Nat) (uid : String) (nm pl av : Option String) :
    (joinStep s c uid nm pl av).1 =
      { s with connUser := ainsert s.connUser c uid,
               userSockets := ainsert s.userSockets uid
                 (if c ∈ socksOf s uid then socksOf s uid else socksOf s uid ++ [c]),
               onlineUsers := ainsert s.onlineUsers uid
                 (Profile.mk uid (jsOr nm "Anonyme") (jsOr pl "free") (jsOr av "👤")) } := rfl

theorem inv_join (s : ServerState) (c : Nat) (uid : String) (nm pl av : Option String)
    (h : Inv s) (hc : c ∈ s.conns) (hne : uid ≠ "")
    (hnr : alookup s.connUser c = none ∨ alookup s.connUser c = some uid) :
    Inv (joinStep s c uid nm pl av).1 := by
  obtain ⟨h0, h1, h2, h3⟩ := h
  rw [joinStep_state]
  have hsub : ∀ d ∈ socksOf s uid, d ∈ s.conns ∧ alookup s.connUser d = some uid := by
    intro d hd
    unfold socksOf at hd
    cases hl : alookup s.userSockets uid with
    | none => rw [hl] at hd; cases hd
    | some l => rw [hl] at hd; exact (h2 uid l hl).2.2 d hd
  have hnodup : (socksOf s uid).Nodup := by
    unfold socksOf
    cases hl : alookup s.userSockets uid with
    | none => exact List.nodup_nil
    | some l => exact (h2 uid l hl).2.1
  have hmem1 : c ∈ (if c ∈ socksOf s uid then socksOf s uid else socksOf s uid ++ [c]) := by
    by_cases hcm : c ∈ socksOf s uid
    · rw [if_pos hcm]; exact hcm
    · rw [if_neg hcm]; exact List.mem_append_right _ (List.mem_singleton.mpr rfl)
  have hsub1 : ∀ d ∈ (if c ∈ socksOf s uid then socksOf s uid else socksOf s uid ++ [c]),
      d = c ∨ d ∈ socksOf s uid := by
    intro d hd
    by_cases hcm : c ∈ socksOf s uid
    · rw [if_pos hcm] at hd; exact Or.inr hd
    · rw [if_neg hcm] at hd
      rcases List.mem_append.mp hd with hx | hx
      · exact Or.inr hx
      · exact Or.inl (List.mem_singleton.mp hx)
  have hmono : ∀ d ∈ socksOf s uid,
      d ∈ (if c ∈ socksOf s uid then socksOf s uid else socksOf s uid ++ [c]) := by
    intro d hd
    by_cases hcm : c ∈ socksOf s uid
    · rw [if_pos hcm]; exact hd
    · rw [if_neg hcm]; exact List.mem_append_left _ hd
  have hs1ne : (if c ∈ socksOf s uid then socksOf s uid else socksOf s uid ++ [c]) ≠ [] := by
    intro hnil
    rw [hnil] at hmem1
    cases hmem1
  have hs1nodup : (if c ∈ socksOf s uid then socksOf s uid else socksOf s uid ++ [c]).Nodup := by
    by_cases hcm : c ∈ socksOf s uid
    · rw [if_pos hcm]; exact hnodup
    · rw [if_neg hcm]
      rw [List.nodup_append]
      refine ⟨hnodup, List.nodup_singleton c, ?_⟩
      intro x hx hx2
      rw [List.mem_singleton] at hx2
      subst hx2
      exact hcm hx
  refine ⟨?_, ?_, ?_, ?_⟩
  · intro d
    rw [alookup_ainsert]
    by_cases hdc : c = d
    · rw [if_pos hdc]
      intro hq
      exact hne (Option.some.inj hq)
    · rw [if_neg hdc]
      exact h0 d
  · intro u
    rw [alookup_ainsert, alookup_ainsert]
    by_cases hu : uid = u
    · rw [if_pos hu, if_pos hu]
      simp
    · rw [if_neg hu, if_neg hu]
      exact h1 u
  · intro u socks hlk
    rw [alookup_ainsert] at hlk
    by_cases hu : uid = u
    · rw [if_pos hu] at hlk
      have hlk2 := Option.some.inj hlk
      subst hlk2
      refine ⟨hs1ne, hs1nodup, ?_⟩
      intro d hd
      rcases hsub1 d hd with rfl | hdm
      · refine ⟨hc, ?_⟩
        rw [alookup_ainsert, if_pos rfl, hu]
      · obtain ⟨hdc, hdu⟩ := hsub d hdm
        refine ⟨hdc, ?_⟩
        rw [alookup_ainsert]
        by_cases hdc2 : c = d
        · rw [if_pos hdc2, hu]
        · rw [if_neg hdc2, ← hu]
          exact hdu
    · rw [if_neg hu] at hlk
      obtain ⟨hne2, hnd2, hmem2⟩ := h2 u socks hlk
      refine ⟨hne2, hnd2, ?_⟩
      intro d hd
      obtain ⟨hdc, hdu⟩ := hmem2 d hd
      refine ⟨hdc, ?_⟩
      rw [alookup_ainsert]
      by_cases hdc2 : c = d
      · exfalso
        subst hdc2
        rcases hnr with hn | hn
        · rw [hn] at hdu
          cases hdu
        · rw [hn] at hdu
          exact hu (Option.some.inj hdu)
      · rw [if_neg hdc2]
        exact hdu
  · intro d u hlk
    rw [alookup_ainsert] at hlk
    by_cases hdc : c = d
    · rw [if_pos hdc] at hlk
      have hq := Option.some.inj hlk
      subst hq
      subst hdc
      refine ⟨hc, ?_⟩
      unfold socksOf
      rw [alookup_ainsert, if_pos rfl]
      exact hmem1
    · rw [if_neg hdc] at hlk
      obtain ⟨hdconns, hdsock⟩ := h3 d u hlk
      refine ⟨hdconns, ?_⟩
      unfold socksOf
      rw [alookup_ainsert]
      by_cases hu : uid = u
      · rw [if_pos hu]
        simp only [Option.getD_some]
        subst hu
        exact hmono d hdsock
      · rw [if_neg hu]
        exact hdsock

theorem inv_close_unbound (s : ServerState) (c : Nat) (h : Inv s)
    (hcu : alookup s.connUser c = none) :
    Inv { s with conns := s.conns.erase c, connUser := aerase s.connUser c } := by
  obtain ⟨h0, h1, h2, h3⟩ := h
  refine ⟨?_, h1, ?_, ?_⟩
  · intro d
    rw [alookup_aerase]
    by_cases hdc : c = d
    · rw [if_pos hdc]
      exact fun hq => Option.noConfusion hq
    · rw [if_neg hdc]
      exact h0 d
  · intro u socks hlk
    obtain ⟨hne2, hnd2, hmem2⟩ := h2 u socks hlk
    refine ⟨hne2, hnd2, ?_⟩
    intro d hd
    obtain ⟨hdc, hdu⟩ := hmem2 d hd
    have hdne : d ≠ c := by
      intro hq
      rw [hq, hcu] at hdu
      cases hdu
    refine ⟨(List.mem_erase_of_ne hdne).mpr hdc, ?_⟩
    rw [alookup_aerase, if_neg (fun hq => hdne hq.symm)]
    exact hdu
  · intro d u hlk
    rw [alookup_aerase] at hlk
    by_cases hdc : c = d
    · rw [if_pos hdc] at hlk
      cases hlk
    · rw [if_neg hdc] at hlk
      obtain ⟨ha, hb⟩ := h3 d u hlk
      exact ⟨(List.mem_erase_of_ne (fun hq => hdc hq.symm)).mpr ha, hb⟩

theorem inv_close (s : ServerState) (c : Nat) (h : Inv s) : Inv (handleClose s c) := by
  have hInv := h
  obtain ⟨h0, h1, h2, h3⟩ := h
  unfold handleClose
  cases hcu : alookup s.connUser c with
  | none => exact inv_close_unbound s c hInv hcu
  | some uid =>
    have hune : uid ≠ "" := fun hq => h0 c (by rw [hcu, hq])
    dsimp only
    rw [if_neg hune]
    have hcs : c ∈ socksOf s uid := (h3 c uid hcu).2
    cases hsk : alookup s.userSockets uid with
    | none =>
      exfalso
      unfold socksOf at hcs
      rw [hsk] at hcs
      cases hcs
    | some socks =>
      obtain ⟨hsne, hsnd, hsmem⟩ := h2 uid socks hsk
      have hcsocks : c ∈ socks := by
        unfold socksOf at hcs
        rw [hsk] at hcs
        exact hcs
      dsimp only
      by_cases hempty : socks.erase c = []
      · rw [if_pos hempty]
        refine ⟨?_, ?_, ?_, ?_⟩
        · intro d
          rw [alookup_aerase]
          by_cases hdc : c = d
          · rw [if_pos hdc]
            exact fun hq => Option.noConfusion hq
          · rw [if_neg hdc]
            exact h0 d
        · intro u
          rw [alookup_aerase, alookup_aerase]
          by_cases hu : uid = u
          · rw [if_pos hu, if_pos hu]
            simp
          · rw [if_neg hu, if_neg hu]
            exact h1 u
        · intro u socksu hlk
          rw [alookup_aerase] at hlk
          by_cases hu : uid = u
          · rw [if_pos hu] at hlk
            cases hlk
          · rw [if_neg hu] at hlk
            obtain ⟨hne2, hnd2, hmem2⟩ := h2 u socksu hlk
            refine ⟨hne2, hnd2, ?_⟩
            intro d hd
            obtain ⟨hdc, hdu⟩ := hmem2 d hd
            have hdne : d ≠ c := by
              intro hq
              rw [hq, hcu] at hdu
              exact hu (Option.some.inj hdu)
            refine ⟨(List.mem_erase_of_ne hdne).mpr hdc, ?_⟩
            rw [alookup_aerase, if_neg (fun hq => hdne hq.symm)]
            exact hdu
        · intro d u hlk
          rw [alookup_aerase] at hlk
          by_cases hdc : c = d
          · rw [if_pos hdc] at hlk
            cases hlk
          · rw [if_neg hdc] at hlk
            obtain ⟨ha, hb⟩ := h3 d u hlk
            refine ⟨(List.mem_erase_of_ne (fun hq => hdc hq.symm)).mpr ha, ?_⟩
            have hu : uid ≠ u := by
              intro hq
              subst hq
              unfold socksOf at hb
              rw [hsk] at hb
              have hdb : d ∈ socks.erase c :=
                (List.Nodup.mem_erase_iff hsnd).mpr ⟨fun hq2 => hdc hq2.symm, hb⟩
              rw [hempty] at hdb
              cases hdb
            unfold socksOf
            rw [alookup_aerase, if_neg hu]
            exact hb
      · rw [if_neg hempty]
        refine ⟨?_, ?_, ?_, ?_⟩
        · intro d
          rw [alookup_aerase]
          by_cases hdc : c = d
          · rw [if_pos hdc]
            exact fun hq => Option.noConfusion hq
          · rw [if_neg hdc]
            exact h0 d
        · intro u
          rw [alookup_ainsert]
          by_cases hu : uid = u
          · rw [if_pos hu]
            subst hu
            simp only [Option.isSome_some, iff_true]
            exact (h1 uid).mpr (by rw [hsk]; rfl)
          · rw [if_neg hu]
            exact h1 u
        · intro u socksu hlk
          rw [alookup_ainsert] at hlk
          by_cases hu : uid = u
          · rw [if_pos hu] at hlk
            have hq := Option.some.inj hlk
            subst hq
            refine ⟨hempty, List.Nodup.erase c hsnd, ?_⟩
            intro d hd
            obtain ⟨hdne, hdm⟩ := (List.Nodup.mem_erase_iff hsnd).mp hd
            obtain ⟨hdc, hdu⟩ := hsmem d hdm
            refine ⟨(List.mem_erase_of_ne hdne).mpr hdc, ?_⟩
            rw [alookup_aerase, if_neg (fun hq2 => hdne hq2.symm), ← hu]
            exact hdu
          · rw [if_neg hu] at hlk
            obtain ⟨hne2, hnd2, hmem2⟩ := h2 u socksu hlk
            refine ⟨hne2, hnd2, ?_⟩
            intro d hd
            obtain ⟨hdc, hdu⟩ := hmem2 d hd
            have hdne : d ≠ c := by
              intro hq
              rw [hq, hcu] at hdu
              exact hu (Option.some.inj hdu)
            refine ⟨(List.mem_erase_of_ne hdne).mpr hdc, ?_⟩
            rw [alookup_aerase, if_neg (fun hq => hdne hq.symm)]
            exact hdu
        · intro d u hlk
          rw [alookup_aerase] at hlk
          by_cases hdc : c = d
          · rw [if_pos hdc] at hlk
            cases hlk
          · rw [if_neg hdc] at hlk
            obtain ⟨ha, hb⟩ := h3 d u hlk
            refine ⟨(List.mem_erase_of_ne (fun hq => hdc hq.symm)).mpr ha, ?_⟩
            unfold socksOf at hb ⊢
            rw [alookup_ainsert]
            by_cases hu : uid = u
            · rw [if_pos hu]
              simp only [Option.getD_some]
              subst hu
              rw [hsk] at hb
              simp only [Option.getD_some] at hb
              exact (List.Nodup.mem_erase_iff hsnd).mpr ⟨fun hq => hdc hq.symm, hb⟩
            · rw [if_neg hu]
              exact hb

theorem inv_frame (s : ServerState) (c : Nat) (f : Frame) (h : Inv s)
    (hc : c ∈ s.conns) (hok : joinOk s (.frame c f) = true) :
    Inv (handleFrame s c f).1 := by
  cases f with
  | join uid nm pl av =>
    simp only [joinOk, Bool.and_eq_true, Bool.not_eq_true', beq_eq_false_iff_ne] at hok
    obtain ⟨hne, hmatch⟩ := hok
    have hnr : alookup s.connUser c = none ∨ alookup s.connUser c = some uid := by
      cases hcu : alookup s.connUser c with
      | none => exact Or.inl rfl
      | some u =>
        rw [hcu] at hmatch
        right
        have hq : u = uid := by simpa using hmatch
        rw [hq]
    exact inv_join s c uid nm pl av h hc hne hnr
  | message nm pl av tx =>
    cases hb : boundUser s c with
    | none =>
      have he : (handleFrame s c (.message nm pl av tx)).1 = s := by
        simp only [handleFrame, messageStep, hb]
      rw [he]
      exact h
    | some uid =>
      rw [messageStep_reduce s c uid hb]
      exact inv_of_fields s _ h rfl rfl rfl rfl
  | dm toId fn fp tx =>
    cases hb : boundUser s c with
    | none =>
      have he : (handleFrame s c (.dm toId fn fp tx)).1 = s := by
        simp only [handleFrame, dmStep, hb]
      rw [he]
      exact h
    | some uid =>
      cases toId with
      | none =>
        have he : (handleFrame s c (.dm none fn fp tx)).1 = s := by
          simp only [handleFrame, dmStep, hb]
        rw [he]
        exact h
      | some t =>
        by_cases hcnd : t = "" ∨ t = uid
        · have he : (handleFrame s c (.dm (some t) fn fp tx)).1 = s := by
            simp only [handleFrame, dmStep, hb]
            rw [if_pos hcnd]
          rw [he]
          exact h
        · have he : (handleFrame s c (.dm (some t) fn fp tx)).1 =
              { s with dmThreads := ainsert s.dmThreads (getDMKey uid t)
                         ((alookup s.dmThreads (getDMKey uid t)).getD [] ++
                           [mkDMMsg s uid t fn fp tx]),
                       now := s.now + 1 } := by
            simp only [handleFrame, dmStep, hb]
            rw [if_neg hcnd]
          rw [he]
          exact inv_of_fields s _ h rfl rfl rfl rfl
  | getDmHistory w =>
    cases hb : boundUser s c with
    | none =>
      have he : (handleFrame s c (.getDmHistory w)).1 = s := by
        simp only [handleFrame, historyStep, hb]
      rw [he]
      exact h
    | some uid =>
      have he : (handleFrame s c (.getDmHistory w)).1 = s := by
        simp only [handleFrame, historyStep, hb]
      rw [he]
      exact h
  | typing nm b =>
    cases hb : boundUser s c with
    | none =>
      have he : (handleFrame s c (.typing nm b)).1 = s := by
        simp only [handleFrame, typingStep, hb]
      rw [he]
      exact h
    | some uid =>
      have he : (handleFrame s c (.typing nm b)).1 = s := by
        simp only [handleFrame, typingStep, hb]
      rw [he]
      exact h
  | dmTyping toId nm b =>
    cases hb : boundUser s c with
    | none =>
      have he : (handleFrame s c (.dmTyping toId nm b)).1 = s := by
        simp only [handleFrame, dmTypingStep, hb]
      rw [he]
      exact h
    | some uid =>
      cases toId with
      | none =>
        have he : (handleFrame s c (.dmTyping none nm b)).1 = s := by
          simp only [handleFrame, dmTypingStep, hb]
        rw [he]
        exact h
      | some t =>
        have he : (handleFrame s c (.dmTyping (some t) nm b)).1 = s := by
          simp only [handleFrame, dmTypingStep, hb]
        rw [he]
        exact h

theorem inv_step (s : ServerState) (e : Event) (h : Inv s)
    (hok : okEvent s e = true) (hjo : joinOk s e = true) :
    Inv (applyEvent s e) := by
  cases e with
  | connect c => exact inv_connect s c h
  | frame c f =>
    have hc : c ∈ s.conns := by
      simp only [okEvent] at hok
      simpa using hok
    exact inv_frame s c f h hc hjo
  | close c => exact inv_close s c h

theorem inv_run (s : ServerState) (es : List Event) (h : Inv s)
    (hv : validFrom s es = true) (hd : disciplinedFrom s es = true) :
    Inv (runTrace s es) := by
  induction es generalizing s with
  | nil => exact h
  | cons e rest ih =>
    simp only [validFrom, Bool.and_eq_true] at hv
    simp only [disciplinedFrom, Bool.and_eq_true] at hd
    exact ih (applyEvent s e) (inv_step s e h hv.1 hd.1) hv.2 hd.2

theorem inv_iff (s : ServerState) (h : Inv s) (uid : String) :
    (alookup s.onlineUsers uid).isSome = true ↔
      ∃ c, c ∈ s.conns ∧ c ∈ socksOf s uid := by
  obtain ⟨h0, h1, h2, h3⟩ := h
  constructor
  · intro ho
    have hs := (h1 uid).mp ho
    cases hl : alookup s.userSockets uid with
    | none =>
      rw [hl] at hs
      cases hs
    | some socks =>
      obtain ⟨hne, hnd, hmem⟩ := h2 uid socks hl
      obtain ⟨d, hd⟩ := List.exists_mem_of_ne_nil socks hne
      refine ⟨d, (hmem d hd).1, ?_⟩
      unfold socksOf
      rw [hl]
      exact hd
  · rintro ⟨d, hdc, hds⟩
    unfold socksOf at hds
    cases hl : alookup s.userSockets uid with
    | none =>
      rw [hl] at hds
      cases hds
    | some socks =>
      exact (h1 uid).mpr (by rw [hl]; rfl)

/-- Claim C3 (amended): after every transport-valid event trace obeying
the join discipline (each join names a nonempty userId and no connection
re-joins under a different userId), a user appears in onlineUsers iff it
owns at least one open connection in its userSockets entry — in
particular the presence entry disappears when the last connection closes.
The discipline is necessary: the counterexample trace re-joins one
connection under a different userId and leaves a stale presence entry. -/
theorem C3_presence_invariant (es : List Event) (uid : String)
    (hv : validFrom initState es = true) (hd : disciplinedFrom initState es = true) :
    (alookup (runTrace initState es).onlineUsers uid).isSome = true ↔
      ∃ c, c ∈ (runTrace initState es).conns ∧ c ∈ socksOf (runTrace initState es) uid :=
  inv_iff _ (inv_run initState es inv_initState hv hd) uid

/-- Witness for C3: after connect + join as A, A is present and owns the
open connection 0. -/
theorem C3_presence_invariant_witness :
    validFrom initState [Event.connect 0, Event.frame 0 (Frame.join "A" none none none)] =
      true ∧
    ((alookup (runTrace initState
        [Event.connect 0, Event.frame 0 (Frame.join "A" none none none)]).onlineUsers
        "A").isSome = true ↔
      ∃ c, c ∈ (runTrace initState
          [Event.connect 0, Event.frame 0 (Frame.join "A" none none none)]).conns ∧
        c ∈ socksOf (runTrace initState
          [Event.connect 0, Event.frame 0 (Frame.join "A" none none none)]) "A") :=
  ⟨by decide,
   C3_presence_invariant [Event.connect 0, Event.frame 0 (Frame.join "A" none none none)]
     "A" (by decide) (by decide)⟩

/-- Counterexample for C3 as stated: the transport-valid trace where
connection 0 joins as A, re-joins as B on the same connection, then
closes, leaves A in the presence roster although no connection is open at
all (conns is empty), so A owns no open connection. -/
theorem C3_counterexample :
    validFrom initState [Event.connect 0, Event.frame 0 (Frame.join "A" none none none),
      Event.frame 0 (Frame.join "B" none none none), Event.close 0] = true ∧
    (alookup (runTrace initState
      [Event.connect 0, Event.frame 0 (Frame.join "A" none none none),
       Event.frame 0 (Frame.join "B" none none none), Event.close 0]).onlineUsers
      "A").isSome = true ∧
    (runTrace initState
      [Event.connect 0, Event.frame 0 (Frame.join "A" none none none),
       Event.frame 0 (Frame.join "B" none none none), Event.close 0]).conns = [] := by
  decide

end Viralboost
